import Mathlib

/-!
# Verification of the loft daemon core

Shallow embedding of the loft daemon's wire codec (`src/daemon/messaging.rs`),
shared daemon state and control operations (`src/daemon/mod.rs`,
`src/daemon/dbus.rs`, `src/daemon/tray.rs`), the Chrome process supervisor
loop, the CDP extension loader and the native-messaging relay, together with
proofs of the specified properties.

Modelling conventions:
* bytes are `Nat` values (all writers emit values < 256);
* Rust `String` values are `List Char` (unicode scalar sequences);
* `serde_json::Value` is the inductive `Json` below, restricted to the
  unsigned-integer numbers this program reads and writes (no floats or
  negative numbers appear anywhere in its messages);
* fallible code returns `Option` / `Except`;
* the async reader/writer variants are embedded as separate definitions
  mirroring their own source text.
-/

namespace Loft

/-! ## UTF-8 (the byte representation `serde_json` reads and writes) -/

/-- UTF-8 encoding of one unicode scalar value, by code-point range. -/
def utf8Char (c : Char) : List Nat :=
  if c.toNat < 0x80 then [c.toNat]
  else if c.toNat < 0x800 then [0xC0 + c.toNat / 64, 0x80 + c.toNat % 64]
  else if c.toNat < 0x10000 then
    [0xE0 + c.toNat / 4096, 0x80 + c.toNat / 64 % 64, 0x80 + c.toNat % 64]
  else
    [0xF0 + c.toNat / 262144, 0x80 + c.toNat / 4096 % 64, 0x80 + c.toNat / 64 % 64,
      0x80 + c.toNat % 64]


/-- UTF-8 encoding of a character sequence. -/
def utf8Encode (cs : List Char) : List Nat := (cs.map utf8Char).flatten


/-- Is `b` a UTF-8 continuation byte? -/
def isCont (b : Nat) : Bool := 0x80 ≤ b && b < 0xC0


/-- Decode one UTF-8 character off the front of a byte list, returning it and
the unconsumed tail. -/
def utf8DecodeChar : List Nat → Option (Char × List Nat)
  | [] => none
  | b0 :: r0 =>
    if b0 < 0x80 then some (Char.ofNat b0, r0)
    else if b0 < 0xC0 then none
    else if b0 < 0xE0 then
      match r0 with
      | b1 :: r1 =>
        if isCont b1 then some (Char.ofNat ((b0 - 0xC0) * 64 + (b1 - 0x80)), r1) else none
      | [] => none
    else if b0 < 0xF0 then
      match r0 with
      | b1 :: b2 :: r2 =>
        if isCont b1 && isCont b2 then
          some (Char.ofNat ((b0 - 0xE0) * 4096 + (b1 - 0x80) * 64 + (b2 - 0x80)), r2)
        else none
      | _ => none
    else if b0 < 0xF8 then
      match r0 with
      | b1 :: b2 :: b3 :: r3 =>
        if isCont b1 && isCont b2 && isCont b3 then
          some (Char.ofNat
            ((b0 - 0xF0) * 262144 + (b1 - 0x80) * 4096 + (b2 - 0x80) * 64 + (b3 - 0x80)), r3)
        else none
      | _ => none
    else none


/-- Decode a whole byte list as UTF-8 (fuelled; one unit of fuel per char). -/
def utf8DecodeAux : Nat → List Nat → Option (List Char)
  | _, [] => some []
  | 0, _ :: _ => none
  | f + 1, bs =>
    match utf8DecodeChar bs with
    | some (c, rest) => (utf8DecodeAux f rest).map (c :: ·)
    | none => none


/-- Decode a byte list as UTF-8, as `String::from_utf8` / `serde_json`
require of inbound message bodies. -/
def utf8Decode (bs : List Nat) : Option (List Char) := utf8DecodeAux bs.length bs


/-! ## JSON values

`serde_json::Value` restricted to what the program exchanges: null,
booleans, unsigned integers (`u32` badge counts, CDP ids), strings,
arrays and objects.  Objects are field lists in serialization order;
the derived message (de)serializers below look fields up by name, so
field order never influences a decoded message. -/

mutual
inductive Json where
  | null
  | bool (b : Bool)
  | num (n : Nat)
  | str (s : List Char)
  | arr (elems : JsonArr)
  | obj (fields : JsonObj)
deriving DecidableEq
inductive JsonArr where
  | nil
  | cons (hd : Json) (tl : JsonArr)
deriving DecidableEq
inductive JsonObj where
  | nil
  | cons (key : List Char) (val : Json) (tl : JsonObj)
deriving DecidableEq
end

/-- Field lookup, modelling `Value::get(key)`: first field with the given
name on an object, `None` on every non-object value, as in `serde_json`. -/
def Json.get (key : List Char) : Json → Option Json
  | .obj fs => go fs
  | _ => none
where go : JsonObj → Option Json
  | .nil => none
  | .cons k v tl => if k = key then some v else go tl


/-! ## JSON text: rendering (modelling `serde_json::to_vec`) -/

/-- Decimal digit character. -/
def digitChar (d : Nat) : Char := Char.ofNat (48 + d)


/-- Lowercase hex digit character, as `serde_json` emits in `\u00XX` escapes. -/
def hexChar (d : Nat) : Char := if d < 10 then Char.ofNat (48 + d) else Char.ofNat (87 + d)


/-- Decimal digit expansion, most significant first (fuelled; `natChars`
supplies enough fuel). -/
def natCharsAux : Nat → Nat → List Char
  | 0, _ => []
  | f + 1, n => if n < 10 then [digitChar n] else natCharsAux f (n / 10) ++ [digitChar (n % 10)]


/-- Decimal rendering of an unsigned integer. -/
def natChars (n : Nat) : List Char := natCharsAux (n + 1) n


/-- String-character escaping, mirroring `serde_json`'s escape table:
`"` and `\` get two-character escapes, the five control characters with
short escapes get those, remaining control characters get `\u00XX`, and
everything else passes through unescaped. -/
def escapeChar (c : Char) : List Char :=
  if c = '"' then ['\\', '"']
  else if c = '\\' then ['\\', '\\']
  else if c.toNat = 8 then ['\\', 'b']
  else if c.toNat = 9 then ['\\', 't']
  else if c.toNat = 10 then ['\\', 'n']
  else if c.toNat = 12 then ['\\', 'f']
  else if c.toNat = 13 then ['\\', 'r']
  else if c.toNat < 32 then ['\\', 'u', '0', '0', hexChar (c.toNat / 16), hexChar (c.toNat % 16)]
  else [c]


/-- Escape a whole string body. -/
def escapeList (s : List Char) : List Char := (s.map escapeChar).flatten


mutual
/-- Compact JSON rendering of a value, as `serde_json::to_vec` produces
(no whitespace, fields in serialization order). -/
def renderJson : Json → List Char
  | .null => "null".toList
  | .bool b => if b then "true".toList else "false".toList
  | .num n => natChars n
  | .str s => '"' :: escapeList s ++ ['"']
  | .arr es => '[' :: renderArr es ++ [']']
  | .obj fs => '\x7b' :: renderObj fs ++ ['\x7d']
/-- Comma-separated rendering of array elements. -/
def renderArr : JsonArr → List Char
  | .nil => []
  | .cons e .nil => renderJson e
  | .cons e (.cons e2 tl) => renderJson e ++ ',' :: renderArr (.cons e2 tl)
/-- Comma-separated rendering of object fields. -/
def renderObj : JsonObj → List Char
  | .nil => []
  | .cons k v .nil => '"' :: escapeList k ++ '"' :: ':' :: renderJson v
  | .cons k v (.cons k2 v2 tl) =>
    '"' :: escapeList k ++ '"' :: ':' :: renderJson v ++ ',' :: renderObj (.cons k2 v2 tl)
end

/-! ## JSON text: parsing (modelling `serde_json::from_slice`)

The parser accepts the compact grammar the renderer above emits —
which is also the grammar every JSON-producing peer of this program
(the Chrome extension and CDP) emits on the wire. -/

/-- Is `c` a decimal digit? -/
def isDigitCh (c : Char) : Bool := 48 ≤ c.toNat && c.toNat ≤ 57


/-- Consume a run of decimal digits, accumulating their value onto `acc`. -/
def parseNatAux (acc : Nat) : List Char → Nat × List Char
  | [] => (acc, [])
  | c :: cs =>
    if isDigitCh c then parseNatAux (acc * 10 + (c.toNat - 48)) cs else (acc, c :: cs)


/-- Value of a hex digit character. -/
def hexVal (c : Char) : Option Nat :=
  if 48 ≤ c.toNat ∧ c.toNat ≤ 57 then some (c.toNat - 48)
  else if 97 ≤ c.toNat ∧ c.toNat ≤ 102 then some (c.toNat - 87)
  else if 65 ≤ c.toNat ∧ c.toNat ≤ 70 then some (c.toNat - 55)
  else none


/-- Resolve a one-character string escape. -/
def unescapeChar (e : Char) : Option Char :=
  if e = '"' then some '"'
  else if e = '\\' then some '\\'
  else if e = '/' then some '/'
  else if e = 'b' then some (Char.ofNat 8)
  else if e = 't' then some (Char.ofNat 9)
  else if e = 'n' then some (Char.ofNat 10)
  else if e = 'f' then some (Char.ofNat 12)
  else if e = 'r' then some (Char.ofNat 13)
  else none


/-- Parse a string body up to and including the closing quote, resolving
escapes; returns the string contents and the unconsumed tail. -/
def parseStringBody : List Char → Option (List Char × List Char)
  | [] => none
  | c :: rest =>
    if c = '"' then some ([], rest)
    else if c = '\\' then
      match rest with
      | [] => none
      | e :: rest2 =>
        if e = 'u' then
          match rest2 with
          | h1 :: h2 :: h3 :: h4 :: rest3 =>
            match hexVal h1, hexVal h2, hexVal h3, hexVal h4 with
            | some v1, some v2, some v3, some v4 =>
              (parseStringBody rest3).map
                (fun p => (Char.ofNat (((v1 * 16 + v2) * 16 + v3) * 16 + v4) :: p.1, p.2))
            | _, _, _, _ => none
          | _ => none
        else
          match unescapeChar e with
          | some c2 => (parseStringBody rest2).map (fun p => (c2 :: p.1, p.2))
          | none => none
    else (parseStringBody rest).map (fun p => (c :: p.1, p.2))


mutual
/-- Parse one JSON value off the front of the input (fuelled; the entry
point supplies input length as fuel, which the round-trip proofs show is
always enough for parser inputs this program produces). -/
def parseVal : Nat → List Char → Option (Json × List Char)
  | 0, _ => none
  | _ + 1, [] => none
  | f + 1, c :: cs =>
    if c = 'n' then
      match cs with
      | 'u' :: 'l' :: 'l' :: rest => some (.null, rest)
      | _ => none
    else if c = 't' then
      match cs with
      | 'r' :: 'u' :: 'e' :: rest => some (.bool true, rest)
      | _ => none
    else if c = 'f' then
      match cs with
      | 'a' :: 'l' :: 's' :: 'e' :: rest => some (.bool false, rest)
      | _ => none
    else if c = '"' then (parseStringBody cs).map (fun p => (.str p.1, p.2))
    else if c = '[' then
      match cs with
      | ']' :: rest => some (.arr .nil, rest)
      | _ => (parseArrItems f cs).map (fun p => (.arr p.1, p.2))
    else if c = '\x7b' then
      match cs with
      | '\x7d' :: rest => some (.obj .nil, rest)
      | _ => (parseObjItems f cs).map (fun p => (.obj p.1, p.2))
    else if isDigitCh c then
      let p := parseNatAux 0 (c :: cs)
      some (.num p.1, p.2)
    else none
/-- Parse the non-empty element list of an array, including the closing
bracket. -/
def parseArrItems : Nat → List Char → Option (JsonArr × List Char)
  | 0, _ => none
  | f + 1, cs =>
    match parseVal f cs with
    | some (v, rest) =>
      match rest with
      | ',' :: rest2 => (parseArrItems f rest2).map (fun p => (.cons v p.1, p.2))
      | ']' :: rest2 => some (.cons v .nil, rest2)
      | _ => none
    | none => none
/-- Parse the non-empty field list of an object, including the closing
brace. -/
def parseObjItems : Nat → List Char → Option (JsonObj × List Char)
  | 0, _ => none
  | f + 1, cs =>
    match cs with
    | '"' :: cs1 =>
      match parseStringBody cs1 with
      | some (k, rest) =>
        match rest with
        | ':' :: rest2 =>
          match parseVal f rest2 with
          | some (v, rest3) =>
            match rest3 with
            | ',' :: rest4 => (parseObjItems f rest4).map (fun p => (.cons k v p.1, p.2))
            | '\x7d' :: rest4 => some (.cons k v .nil, rest4)
            | _ => none
          | none => none
        | _ => none
      | none => none
    | _ => none
end

/-- Parse a whole character sequence as one JSON value, requiring full
consumption as `serde_json::from_slice` does. -/
def parseJson (cs : List Char) : Option Json :=
  match parseVal (cs.length + 1) cs with
  | some (j, []) => some j
  | _ => none


/-- Characters a rendered JSON value can start with. -/
def isStarter (c : Char) : Bool :=
  c = 'n' || c = 't' || c = 'f' || c = '"' || c = '[' || c = '\x7b' || isDigitCh c


mutual
/-- Fuel measure for the parser: enough fuel to parse a rendered value. -/
def jsize : Json → Nat
  | .null => 1
  | .bool _ => 1
  | .num _ => 1
  | .str _ => 1
  | .arr es => 1 + asize es
  | .obj fs => 1 + osize fs
/-- Fuel measure for a rendered array tail. -/
def asize : JsonArr → Nat
  | .nil => 0
  | .cons e tl => 1 + jsize e + asize tl
/-- Fuel measure for a rendered object tail. -/
def osize : JsonObj → Nat
  | .nil => 0
  | .cons _ v tl => 1 + jsize v + osize tl
end

/-- Helper naming the characters at which parsing resumes after an array
element: the closing bracket for the last element, a comma otherwise. -/
def tailAfter (tl : JsonArr) (rest : List Char) : List Char :=
  match tl with
  | .nil => ']' :: rest
  | .cons e2 tl2 => ',' :: (renderArr (.cons e2 tl2) ++ ']' :: rest)



/-! ## Byte-level JSON codec (`serde_json::to_vec` / `from_slice`) -/

/-- Byte serialization of a JSON value, as `serde_json::to_vec` produces. -/
def jsonToBytes (j : Json) : List Nat := utf8Encode (renderJson j)


/-- Byte parsing of a JSON value, as `serde_json::from_slice` performs
(UTF-8 validation then JSON parsing, full consumption). -/
def bytesToJson (bs : List Nat) : Option Json :=
  match utf8Decode bs with
  | some cs => parseJson cs
  | none => none


/-! ## Message types (`src/daemon/messaging.rs`, lines 16-42)

Both enums carry serde attributes tag = "type", rename_all = "snake_case";
their encodings and decodings below follow the derived serializers. -/

/-- Messages sent from the Chrome extension to the daemon
(ExtensionMessage, messaging.rs lines 19-32).  The u32 badge count is a
Nat together with the wf predicate below. -/
inductive ExtensionMessage where
  | ready (service : List Char)
  | badgeUpdate (count : Nat)
  | notification (title : List Char) (body : List Char) (icon : Option (List Char))
  | windowHidden
  | windowShown
deriving DecidableEq


/-- Value ranges the Rust types impose (count is a u32). -/
def ExtensionMessage.wf : ExtensionMessage → Prop
  | .badgeUpdate count => count < 4294967296
  | _ => True


/-- Messages sent from the daemon to the Chrome extension
(DaemonMessage, messaging.rs lines 37-42): exactly the four variants
DndChanged, HideWindow, ShowWindow, Ping. -/
inductive DaemonMessage where
  | dndChanged (enabled : Bool)
  | hideWindow
  | showWindow
  | ping
deriving DecidableEq


/-- Derived serde serialization of an ExtensionMessage (internally tagged,
snake_case, tag first then fields in declaration order; a None option
field serializes as null). -/
def ExtensionMessage.toJson : ExtensionMessage → Json
  | .ready service =>
    .obj (.cons "type".toList (.str "ready".toList)
      (.cons "service".toList (.str service) .nil))
  | .badgeUpdate count =>
    .obj (.cons "type".toList (.str "badge_update".toList)
      (.cons "count".toList (.num count) .nil))
  | .notification title body icon =>
    .obj (.cons "type".toList (.str "notification".toList)
      (.cons "title".toList (.str title)
        (.cons "body".toList (.str body)
          (.cons "icon".toList (match icon with | some i => .str i | none => .null) .nil))))
  | .windowHidden => .obj (.cons "type".toList (.str "window_hidden".toList) .nil)
  | .windowShown => .obj (.cons "type".toList (.str "window_shown".toList) .nil)


/-- Derived serde deserialization of an ExtensionMessage from a JSON
value (serde_json::from_value::<ExtensionMessage> in
handle_relay_connection): dispatch on the "type" tag, then read fields
by name; a missing or null icon is None; a count outside u32 range is
rejected. -/
def ExtensionMessage.fromJson (j : Json) : Option ExtensionMessage :=
  match j.get "type".toList with
  | some (.str t) =>
    if t = "ready".toList then
      match j.get "service".toList with
      | some (.str s) => some (.ready s)
      | _ => none
    else if t = "badge_update".toList then
      match j.get "count".toList with
      | some (.num n) => if n < 4294967296 then some (.badgeUpdate n) else none
      | _ => none
    else if t = "notification".toList then
      match j.get "title".toList, j.get "body".toList with
      | some (.str title), some (.str body) =>
        match j.get "icon".toList with
        | none => some (.notification title body none)
        | some .null => some (.notification title body none)
        | some (.str i) => some (.notification title body (some i))
        | some _ => none
      | _, _ => none
    else if t = "window_hidden".toList then some .windowHidden
    else if t = "window_shown".toList then some .windowShown
    else none
  | _ => none


/-- Derived serde serialization of a DaemonMessage. -/
def DaemonMessage.toJson : DaemonMessage → Json
  | .dndChanged enabled =>
    .obj (.cons "type".toList (.str "dnd_changed".toList)
      (.cons "enabled".toList (.bool enabled) .nil))
  | .hideWindow => .obj (.cons "type".toList (.str "hide_window".toList) .nil)
  | .showWindow => .obj (.cons "type".toList (.str "show_window".toList) .nil)
  | .ping => .obj (.cons "type".toList (.str "ping".toList) .nil)


/-- Derived serde deserialization of a DaemonMessage. -/
def DaemonMessage.fromJson (j : Json) : Option DaemonMessage :=
  match j.get "type".toList with
  | some (.str t) =>
    if t = "dnd_changed".toList then
      match j.get "enabled".toList with
      | some (.bool b) => some (.dndChanged b)
      | _ => none
    else if t = "hide_window".toList then some .hideWindow
    else if t = "show_window".toList then some .showWindow
    else if t = "ping".toList then some .ping
    else none
  | _ => none


/-! ## Native messaging wire format (messaging.rs, lines 44-105):
4-byte little-endian length + JSON body -/

/-- Error outcomes of the framed readers, named after the error contexts
in read_nm_message / read_nm_message_async. -/
inductive NmError where
  | lengthRead
  | tooLarge (len : Nat)
  | bodyRead
  | jsonFailed
deriving DecidableEq


/-- Little-endian byte expansion of a u32, modelling
(n as u32).to_le_bytes() including the cast's truncation. -/
def u32leBytes (n : Nat) : List Nat :=
  [n % 256, n / 256 % 256, n / 65536 % 256, n / 16777216 % 256]


/-- Value a 4-byte little-endian header declares
(u32::from_le_bytes). -/
def u32leVal (b0 b1 b2 b3 : Nat) : Nat := b0 + 256 * b1 + 65536 * b2 + 16777216 * b3


/-- Embedding of read_nm_message (messaging.rs lines 49-63) over a byte
stream: read exactly 4 length bytes, reject declared lengths over
1,048,576 before reading any body byte, then read exactly that many body
bytes and parse them as JSON.  Returns the parsed value and the
unconsumed stream. -/
def read_nm_message : List Nat → Except NmError (Json × List Nat)
  | b0 :: b1 :: b2 :: b3 :: rest =>
    let len := u32leVal b0 b1 b2 b3
    if len > 1048576 then .error (.tooLarge len)
    else if rest.length < len then .error .bodyRead
    else
      match bytesToJson (rest.take len) with
      | some j => .ok (j, rest.drop len)
      | none => .error .jsonFailed
  | _ => .error .lengthRead


/-- Embedding of the async variant read_nm_message_async (messaging.rs
lines 76-92): read_u32_le, the identical size check before the body
read, read_exact, parse. -/
def read_nm_message_async : List Nat → Except NmError (Json × List Nat)
  | b0 :: b1 :: b2 :: b3 :: rest =>
    let len := u32leVal b0 b1 b2 b3
    if len > 1048576 then .error (.tooLarge len)
    else if rest.length < len then .error .bodyRead
    else
      match bytesToJson (rest.take len) with
      | some j => .ok (j, rest.drop len)
      | none => .error .jsonFailed
  | _ => .error .lengthRead


/-- Embedding of write_nm_message (messaging.rs lines 66-73): serialize
the value, prepend the little-endian length of the serialized bytes
(cast to u32), write both.  write_nm_message_async (lines 95-105) writes
the same bytes for a typed DaemonMessage. -/
def write_nm_message (msg : Json) : List Nat :=
  let data := jsonToBytes msg
  u32leBytes data.length ++ data


/-! ## Composed typed wire pipeline (what claim C1 quantifies over) -/

/-- Encode a typed inbound message onto the wire: serialize, frame. -/
def encode_extension_message (m : ExtensionMessage) : List Nat := write_nm_message m.toJson


/-- Decode a typed inbound message off the wire: read one frame with
read_nm_message, then deserialize the value as handle_relay_connection
does. -/
def decode_extension_message (bs : List Nat) : Option ExtensionMessage :=
  match read_nm_message bs with
  | .ok (j, _) => ExtensionMessage.fromJson j
  | .error _ => none


/-- Encode a typed outbound message onto the wire (write_nm_message_async
serializes the typed value directly; same bytes). -/
def encode_daemon_message (m : DaemonMessage) : List Nat := write_nm_message m.toJson


/-- Decode a typed outbound message off the wire. -/
def decode_daemon_message (bs : List Nat) : Option DaemonMessage :=
  match read_nm_message bs with
  | .ok (j, _) => DaemonMessage.fromJson j
  | .error _ => none


/-! ## Shared daemon state (`src/daemon/mod.rs`, lines 20-88)

The embedding is sequential: every operation is one atomic step, matching
the source where each field is an independent atomic and no operation
holds a lock across a suspension point.  Besides the five atomics and
the pid slot, the model records the observable effects of an operation:
the broadcast log (`cmd_tx.send` calls in order), the count of
`show_signal.notify_waiters()` calls, and the `libc::kill` calls issued.
`chrome_pid.try_lock()` in `request_quit` succeeds in this sequential
model because no other task holds the mutex within an atomic step. -/

structure DaemonState where
  visible : Bool
  badge_count : Nat
  dnd : Bool
  quit_requested : Bool
  start_minimized : Bool
  chrome_pid : Option Nat
  sent : List DaemonMessage
  notified : Nat
  killed : List (Nat × Nat)
deriving DecidableEq


/-- Signal number sent to the supervised process on Quit. -/
def SIGTERM : Nat := 15


/-- DaemonState::new (mod.rs lines 35-47). -/
def DaemonState.new (dnd minimized : Bool) : DaemonState :=
  { visible := false
    badge_count := 0
    dnd := dnd
    quit_requested := false
    start_minimized := minimized
    chrome_pid := none
    sent := []
    notified := 0
    killed := [] }


/-- DaemonState::request_show (mod.rs lines 61-67): set visible, broadcast
ShowWindow, wake show-waiters. -/
def DaemonState.request_show (s : DaemonState) : DaemonState :=
  { s with visible := true, sent := s.sent ++ [.showWindow], notified := s.notified + 1 }


/-- DaemonState::request_hide (mod.rs lines 69-72): clear visible,
broadcast HideWindow. -/
def DaemonState.request_hide (s : DaemonState) : DaemonState :=
  { s with visible := false, sent := s.sent ++ [.hideWindow] }


/-- DaemonState::request_quit (mod.rs lines 74-86): store quit_requested,
send SIGTERM to the recorded Chrome pid when one is present, wake
show-waiters. -/
def DaemonState.request_quit (s : DaemonState) : DaemonState :=
  let s1 := { s with quit_requested := true }
  let s2 :=
    match s1.chrome_pid with
    | some pid => { s1 with killed := s1.killed ++ [(pid, SIGTERM)] }
    | none => s1
  { s2 with notified := s2.notified + 1 }


/-- One decoded inbound frame handled by the relay-connection loop
(handle_relay_connection, messaging.rs lines 171-197): from_value then
the match on ExtensionMessage; an undecodable value is logged and leaves
state untouched. -/
def handle_relay_message (v : Json) (s : DaemonState) : DaemonState :=
  match ExtensionMessage.fromJson v with
  | some (.ready _) => s
  | some (.badgeUpdate count) => { s with badge_count := count }
  | some (.notification _ _ _) => s
  | some .windowHidden => { s with visible := false }
  | some .windowShown => { s with visible := true }
  | none => s


/-- One pass of the inbound select arm: a read error ends the connection
loop (the `?` on `msg`); a decoded value is handled and the loop
continues — also for unknown variants. -/
def relay_inbound_step (readResult : Except NmError Json) (s : DaemonState) :
    DaemonState × Bool :=
  match readResult with
  | .error _ => (s, false)
  | .ok v => (handle_relay_message v s, true)


/-- Every operation in the source that writes DaemonState: the four D-Bus
methods Show/Hide/Toggle/Quit (dbus.rs lines 22-44; the tray menu calls
the same request functions), the tray Do-Not-Disturb toggle (tray.rs
line 106), one handled relay frame, and the supervisor's spawn/exit
stores (mod.rs lines 276-277 and 285-286). -/
inductive DaemonOp where
  | show
  | hide
  | toggle
  | quit
  | setDnd (b : Bool)
  | inbound (v : Json)
  | recordSpawn (pid : Option Nat)
  | clearExit
deriving DecidableEq


/-- Apply one state-writing operation. -/
def applyOp : DaemonOp → DaemonState → DaemonState
  | .show, s => s.request_show
  | .hide, s => s.request_hide
  | .toggle, s => if s.visible then s.request_hide else s.request_show
  | .quit, s => s.request_quit
  | .setDnd b, s => { s with dnd := b }
  | .inbound v, s => handle_relay_message v s
  | .recordSpawn pid, s => { s with chrome_pid := pid, visible := true }
  | .clearExit, s => { s with chrome_pid := none, visible := false }


/-- Apply a sequence of operations in order. -/
def applyOps (ops : List DaemonOp) (s : DaemonState) : DaemonState :=
  ops.foldl (fun s op => applyOp op s) s


/-! ## Process supervisor loop (ChromeManager::run_loop, mod.rs 257-301) -/

/-- The quit-flag values the loop observes at its two suspension points,
and the pid of the freshly spawned process.  They are oracle inputs
because other tasks set quit_requested concurrently. -/
structure IterInput where
  wakeQuit : Bool
  spawnPid : Option Nat
  exitQuit : Bool
deriving DecidableEq


/-- Outcome of one iteration of the loop body. -/
inductive IterResult where
  | terminated (s : DaemonState)
  | continues (s : DaemonState)
deriving DecidableEq


/-- The WaitingForShow prefix of an iteration (mod.rs 262-271): when
wait_for_show is set, block on show_signal, then return Ok(()) if quit
was requested; none models the early successful return. -/
def wait_phase (waitForShow : Bool) (wakeQuit : Bool) (s : DaemonState) : Option DaemonState :=
  if waitForShow ∧ wakeQuit then none else some s


/-- The Spawning/Running stores (mod.rs 274-278): record child.id() and
set visible. -/
def spawn_record (pid : Option Nat) (s : DaemonState) : DaemonState :=
  { s with chrome_pid := pid, visible := true }


/-- The post-exit stores (mod.rs 284-286): clear the pid, clear
visible. -/
def exit_clear (s : DaemonState) : DaemonState :=
  { s with chrome_pid := none, visible := false }


/-- One iteration of run_loop on the happy path (spawn and wait both
return Ok; their errors propagate out of the loop as Err and are outside
this claim). -/
def run_loop_iter (waitForShow : Bool) (inp : IterInput) (s : DaemonState) : IterResult :=
  match wait_phase waitForShow inp.wakeQuit s with
  | none => .terminated s
  | some s0 =>
    let s1 := spawn_record inp.spawnPid s0
    let s2 := exit_clear s1
    if inp.exitQuit then .terminated s2 else .continues s2


/-! ## Extension loader (load_extension_via_cdp, mod.rs 402-479)

The read side is modelled over a trace of read outcomes.  Time is
milliseconds since the deadline clock started; the deadline is 10 000 ms
after start and each WouldBlock sleeps 100 ms, as in the source. -/

/-- One outcome of `reader.read(&mut buf)` in the poll loop. -/
inductive CdpEvent where
  | chunk (bytes : List Nat)
  | wouldBlock
  | eofReached
deriving DecidableEq


/-- Result of the loader's read loop, naming the four source outcomes. -/
inductive CdpResult where
  | loaded
  | loadFailed (msg : List Char)
  | timeoutExpired
  | pipeClosed
deriving DecidableEq


/-- Split the first NUL-delimited message off the accumulator, when a
0x00 byte is present. -/
def splitNul : List Nat → Option (List Nat × List Nat)
  | [] => none
  | 0 :: rest => some ([], rest)
  | b :: rest => (splitNul rest).map (fun p => (b :: p.1, p.2))


/-- The error text built from an id:1 error object:
error.get("message") as a string, defaulting to "unknown". -/
def cdp_error_message (e : Json) : List Char :=
  match e.get "message".toList with
  | some (.str s) => s
  | _ => "unknown".toList


/-- Examine one complete NUL-delimited message, as the body of the inner
while-let loop does: unparseable segments and objects whose id differs
from 1 yield nothing and are dropped; an id:1 object with a result
succeeds; an id:1 object with an error fails with its message; an id:1
object with neither is also dropped. -/
def check_cdp_message (msgBytes : List Nat) : Option CdpResult :=
  match bytesToJson msgBytes with
  | some response =>
    if response.get "id".toList = some (.num 1) then
      match response.get "result".toList with
      | some _ => some .loaded
      | none =>
        match response.get "error".toList with
        | some e => some (.loadFailed (cdp_error_message e))
        | none => none
    else none
  | none => none


/-- Drain complete messages from the accumulator (the inner while loop),
returning the first decisive outcome and the remaining partial bytes. -/
def scan_accumulated : Nat → List Nat → Option CdpResult × List Nat
  | 0, acc => (none, acc)
  | f + 1, acc =>
    match splitNul acc with
    | some (msgBytes, rest) =>
      match check_cdp_message msgBytes with
      | some r => (some r, rest)
      | none => scan_accumulated f rest
    | none => (none, acc)


/-- The outer read loop of load_extension_via_cdp over a trace of read
outcomes: data chunks are accumulated and scanned; WouldBlock checks the
deadline then sleeps 100 ms; a zero-byte read breaks out to the
pipe-closed error.  An exhausted trace means no further data ever
arrives, so only WouldBlock outcomes remain and the deadline check makes
the loop return the timeout error. -/
def cdp_read_loop : List CdpEvent → List Nat → Nat → CdpResult
  | [], _, _ => .timeoutExpired
  | .chunk bytes :: events, acc, now =>
    let acc2 := acc ++ bytes
    match scan_accumulated (acc2.length + 1) acc2 with
    | (some r, _) => r
    | (none, acc3) => cdp_read_loop events acc3 now
  | .wouldBlock :: events, acc, now =>
    if now > 10000 then .timeoutExpired
    else cdp_read_loop events acc (now + 100)
  | .eofReached :: _, _, _ => .pipeClosed


/-- Concatenate messages with one 0x00 terminator each, as the CDP pipe
frames them. -/
def nulJoin (msgs : List (List Nat)) : List Nat := (msgs.map (· ++ [0])).flatten


/-! ## External relay process (run_relay, messaging.rs 223-289) -/

/-- Everything run_relay does before spawning its two copy threads. -/
structure RelayStart where
  service : List Char
  socketPath : List Char
  first_forwarded : List Nat
  stdin_rest : List Nat
deriving DecidableEq


/-- Fatal startup failures of run_relay: the initial read failing (with
its cause), or the first frame lacking a string "service" field. -/
inductive RelayError where
  | initialRead (e : NmError)
  | missingService
deriving DecidableEq


/-- Per-service socket path (socket_dir/socket_path, messaging.rs
111-123): runtime_dir/loft/(service).sock. -/
def relay_socket_path (runtimeDir : List Char) (service : List Char) : List Char :=
  runtimeDir ++ "/loft/".toList ++ service ++ ".sock".toList


/-- The startup phase of run_relay: read exactly one frame from stdin;
require a string "service" field (get + as_str); connect to that
service's socket and forward the first frame (re-framed by
write_nm_message) before the two copy loops start.  The unconsumed
stdin is what the stdin-to-socket loop will read. -/
def run_relay_start (runtimeDir : List Char) (stdin : List Nat) :
    Except RelayError RelayStart :=
  match read_nm_message stdin with
  | .error e => .error (.initialRead e)
  | .ok (first_msg, rest) =>
    match first_msg.get "service".toList with
    | some (.str s) =>
      .ok { service := s
            socketPath := relay_socket_path runtimeDir s
            first_forwarded := write_nm_message first_msg
            stdin_rest := rest }
    | _ => .error .missingService


theorem char_toNat_lt (c : Char) : c.toNat < 1114112 := by
  have h := c.valid
  unfold UInt32.isValidChar Nat.isValidChar at h
  rcases h with h | ⟨h1, h2⟩ <;> simp only [Char.toNat] <;> omega


theorem utf8Char_length_pos (c : Char) : 1 ≤ (utf8Char c).length := by
  simp only [utf8Char]
  split
  · simp
  · split
    · simp
    · split <;> simp


theorem utf8Char_length_le (c : Char) : (utf8Char c).length ≤ 4 := by
  simp only [utf8Char]
  split
  · simp
  · split
    · simp
    · split <;> simp


/-- Round trip for one character: decoding the encoding of `c` returns `c`
and leaves the trailing bytes untouched. -/
theorem utf8DecodeChar_utf8Char (c : Char) (rest : List Nat) :
    utf8DecodeChar (utf8Char c ++ rest) = some (c, rest) := by
  have hofn := Char.ofNat_toNat c
  have hlt := char_toNat_lt c
  by_cases h1 : c.toNat < 0x80
  · rw [utf8Char, if_pos h1]
    simp only [List.cons_append, List.nil_append, utf8DecodeChar, if_pos h1, hofn]
  · by_cases h2 : c.toNat < 0x800
    · rw [utf8Char, if_neg h1, if_pos h2]
      simp only [List.cons_append, List.nil_append, utf8DecodeChar]
      have e1 : ¬ (0xC0 + c.toNat / 64 < 0x80) := by omega
      have e2 : ¬ (0xC0 + c.toNat / 64 < 0xC0) := by omega
      have e3 : 0xC0 + c.toNat / 64 < 0xE0 := by omega
      have e4 : isCont (0x80 + c.toNat % 64) = true := by
        simp only [isCont, Bool.and_eq_true, decide_eq_true_eq]; omega
      rw [if_neg e1, if_neg e2, if_pos e3, if_pos e4]
      have harith : (0xC0 + c.toNat / 64 - 0xC0) * 64 + (0x80 + c.toNat % 64 - 0x80)
          = c.toNat := by omega
      rw [harith, hofn]
    · by_cases h3 : c.toNat < 0x10000
      · rw [utf8Char, if_neg h1, if_neg h2, if_pos h3]
        simp only [List.cons_append, List.nil_append, utf8DecodeChar]
        have e1 : ¬ (0xE0 + c.toNat / 4096 < 0x80) := by omega
        have e2 : ¬ (0xE0 + c.toNat / 4096 < 0xC0) := by omega
        have e3 : ¬ (0xE0 + c.toNat / 4096 < 0xE0) := by omega
        have e4 : 0xE0 + c.toNat / 4096 < 0xF0 := by omega
        have e5 : (isCont (0x80 + c.toNat / 64 % 64) && isCont (0x80 + c.toNat % 64)) = true := by
          simp only [isCont, Bool.and_eq_true, decide_eq_true_eq]; omega
        rw [if_neg e1, if_neg e2, if_neg e3, if_pos e4, if_pos e5]
        have harith : (0xE0 + c.toNat / 4096 - 0xE0) * 4096
            + (0x80 + c.toNat / 64 % 64 - 0x80) * 64
            + (0x80 + c.toNat % 64 - 0x80) = c.toNat := by omega
        rw [harith, hofn]
      · rw [utf8Char, if_neg h1, if_neg h2, if_neg h3]
        simp only [List.cons_append, List.nil_append, utf8DecodeChar]
        have e1 : ¬ (0xF0 + c.toNat / 262144 < 0x80) := by omega
        have e2 : ¬ (0xF0 + c.toNat / 262144 < 0xC0) := by omega
        have e3 : ¬ (0xF0 + c.toNat / 262144 < 0xE0) := by omega
        have e4 : ¬ (0xF0 + c.toNat / 262144 < 0xF0) := by omega
        have e5 : 0xF0 + c.toNat / 262144 < 0xF8 := by omega
        have e6 : (isCont (0x80 + c.toNat / 4096 % 64) && isCont (0x80 + c.toNat / 64 % 64)
            && isCont (0x80 + c.toNat % 64)) = true := by
          simp only [isCont, Bool.and_eq_true, decide_eq_true_eq]; omega
        rw [if_neg e1, if_neg e2, if_neg e3, if_neg e4, if_pos e5, if_pos e6]
        have harith : (0xF0 + c.toNat / 262144 - 0xF0) * 262144
            + (0x80 + c.toNat / 4096 % 64 - 0x80) * 4096
            + (0x80 + c.toNat / 64 % 64 - 0x80) * 64 + (0x80 + c.toNat % 64 - 0x80)
            = c.toNat := by omega
        rw [harith, hofn]


theorem utf8DecodeAux_encode (cs : List Char) :
    ∀ fuel rest, cs.length ≤ fuel →
      utf8DecodeAux fuel (utf8Encode cs ++ rest) =
        (utf8DecodeAux (fuel - cs.length) rest).map (cs ++ ·) := by
  induction cs with
  | nil =>
    intro fuel rest _
    simp [utf8Encode]
  | cons c cs ih =>
    intro fuel rest hf
    have hstep : utf8Encode (c :: cs) ++ rest = utf8Char c ++ (utf8Encode cs ++ rest) := by
      simp [utf8Encode]
    match fuel with
    | 0 => simp at hf
    | f + 1 =>
      rw [hstep]
      have hne : utf8Char c ++ (utf8Encode cs ++ rest) ≠ [] := by
        have := utf8Char_length_pos c
        cases hc : utf8Char c with
        | nil => rw [hc] at this; simp at this
        | cons a l => simp [hc]
      match hsh : utf8Char c ++ (utf8Encode cs ++ rest), hne with
      | b :: bs, _ =>
        show (match utf8DecodeChar (b :: bs) with
          | some (c, rest) => (utf8DecodeAux f rest).map (c :: ·)
          | none => none) = _
        rw [← hsh, utf8DecodeChar_utf8Char]
        simp only []
        rw [ih f rest (by simpa using hf)]
        have hlen : (f + 1) - (c :: cs).length = f - cs.length := by simp
        rw [hlen, Option.map_map]
        rfl


/-- Round trip for byte lists: UTF-8 decoding the UTF-8 encoding of a
character sequence recovers it. -/
theorem utf8Decode_utf8Encode (cs : List Char) : utf8Decode (utf8Encode cs) = some cs := by
  have hlen : cs.length ≤ (utf8Encode cs).length := by
    induction cs with
    | nil => simp [utf8Encode]
    | cons c cs ih =>
      have := utf8Char_length_pos c
      simp only [utf8Encode, List.map_cons, List.flatten_cons, List.length_append,
        List.length_cons]
      simp only [utf8Encode] at ih
      omega
  have h := utf8DecodeAux_encode cs (utf8Encode cs).length [] hlen
  simpa [utf8Decode, utf8DecodeAux] using h


/-! ## Round trip: parsing recovers every rendered value -/

theorem toNat_ofNat_lt {n : Nat} (h : n < 55296) : (Char.ofNat n).toNat = n := by
  have hv : Nat.isValidChar n := Or.inl h
  simp [Char.ofNat, hv, Char.ofNatAux, Char.toNat, UInt32.toNat, UInt32.ofNatCore]


theorem digitChar_toNat {d : Nat} (h : d < 10) : (digitChar d).toNat = 48 + d := by
  unfold digitChar
  exact toNat_ofNat_lt (by omega)


theorem digitChar_isDigit {d : Nat} (h : d < 10) : isDigitCh (digitChar d) = true := by
  simp only [isDigitCh, digitChar_toNat h, Bool.and_eq_true, decide_eq_true_eq]
  omega


theorem natCharsAux_digits {f n : Nat} (h : n < f) :
    ∀ c ∈ natCharsAux f n, isDigitCh c = true := by
  induction f generalizing n with
  | zero => omega
  | succ f ih =>
    intro c hc
    unfold natCharsAux at hc
    by_cases h10 : n < 10
    · rw [if_pos h10] at hc
      simp only [List.mem_singleton] at hc
      exact hc ▸ digitChar_isDigit h10
    · rw [if_neg h10] at hc
      rcases List.mem_append.mp hc with h1 | h2
      · exact ih (by omega) c h1
      · simp only [List.mem_singleton] at h2
        exact h2 ▸ digitChar_isDigit (by omega)


theorem natCharsAux_ne_nil {f n : Nat} (h : n < f) : natCharsAux f n ≠ [] := by
  match f with
  | 0 => omega
  | f + 1 =>
    unfold natCharsAux
    by_cases h10 : n < 10
    · simp [h10]
    · rw [if_neg h10]
      simp


theorem natChars_digits (n : Nat) : ∀ c ∈ natChars n, isDigitCh c = true :=
  natCharsAux_digits (Nat.lt_succ_self n)


theorem natChars_ne_nil (n : Nat) : natChars n ≠ [] :=
  natCharsAux_ne_nil (Nat.lt_succ_self n)


theorem parseNatAux_stop (acc : Nat) {rest : List Char}
    (h : ∀ c cs, rest = c :: cs → isDigitCh c = false) : parseNatAux acc rest = (acc, rest) := by
  cases rest with
  | nil => rfl
  | cons c cs =>
    unfold parseNatAux
    rw [h c cs rfl]
    simp


theorem parseNatAux_run {f n : Nat} (h : n < f) :
    ∀ acc rest, parseNatAux acc (natCharsAux f n ++ rest)
      = parseNatAux (acc * 10 ^ (natCharsAux f n).length + n) rest := by
  induction f generalizing n with
  | zero => omega
  | succ f ih =>
    intro acc rest
    unfold natCharsAux
    by_cases h10 : n < 10
    · rw [if_pos h10]
      simp only [List.cons_append, List.nil_append, parseNatAux, digitChar_isDigit h10,
        if_true, List.length_singleton]
      rw [digitChar_toNat h10]
      have e1 : acc * 10 + (48 + n - 48) = acc * 10 ^ 1 + n := by omega
      rw [e1]
      simp
    · rw [if_neg h10]
      rw [List.append_assoc, List.cons_append, List.nil_append]
      rw [ih (by omega) acc (digitChar (n % 10) :: rest)]
      have hd : isDigitCh (digitChar (n % 10)) = true := digitChar_isDigit (by omega)
      simp only [parseNatAux, hd, if_true]
      rw [digitChar_toNat (by omega)]
      have e1 : 48 + n % 10 - 48 = n % 10 := by omega
      rw [e1]
      have harith : (acc * 10 ^ (natCharsAux f (n / 10)).length + n / 10) * 10 + n % 10
          = acc * 10 ^ (natCharsAux f (n / 10) ++ [digitChar (n % 10)]).length + n := by
        simp only [List.length_append, List.length_singleton, pow_succ]
        have e2 : n / 10 * 10 + n % 10 = n := by omega
        calc (acc * 10 ^ (natCharsAux f (n / 10)).length + n / 10) * 10 + n % 10
            = acc * (10 ^ (natCharsAux f (n / 10)).length * 10)
              + (n / 10 * 10 + n % 10) := by ring
          _ = acc * (10 ^ (natCharsAux f (n / 10)).length * 10) + n := by rw [e2]
      rw [harith]


theorem parseNat_natChars (n : Nat) {rest : List Char}
    (h : ∀ c cs, rest = c :: cs → isDigitCh c = false) :
    parseNatAux 0 (natChars n ++ rest) = (n, rest) := by
  unfold natChars
  rw [parseNatAux_run (Nat.lt_succ_self n), parseNatAux_stop _ h]
  simp


theorem hexVal_hexChar {d : Nat} (h : d < 16) : hexVal (hexChar d) = some d := by
  unfold hexChar
  by_cases h10 : d < 10
  · rw [if_pos h10]
    have ht : (Char.ofNat (48 + d)).toNat = 48 + d := toNat_ofNat_lt (by omega)
    unfold hexVal
    rw [ht, if_pos (by omega)]
    congr 1
    omega
  · rw [if_neg h10]
    have ht : (Char.ofNat (87 + d)).toNat = 87 + d := toNat_ofNat_lt (by omega)
    unfold hexVal
    rw [ht, if_neg (by omega), if_pos (by omega)]
    congr 1
    omega


/-- Parsing undoes string escaping: the body parser consumes the escaped
string and its closing quote and returns the original contents. -/
theorem parseStringBody_escape (s : List Char) (rest : List Char) :
    parseStringBody (escapeList s ++ '"' :: rest) = some (s, rest) := by
  induction s with
  | nil =>
    show parseStringBody (escapeList [] ++ '"' :: rest) = some ([], rest)
    rw [show escapeList [] = [] from rfl, List.nil_append]
    unfold parseStringBody
    simp
  | cons c s ih =>
    have hofn := Char.ofNat_toNat c
    have hstep : escapeList (c :: s) ++ '"' :: rest
        = escapeChar c ++ (escapeList s ++ '"' :: rest) := by
      simp [escapeList]
    rw [hstep]
    unfold escapeChar
    by_cases hq : c = '"'
    · subst hq
      rw [if_pos rfl]
      simp only [List.cons_append, List.nil_append]
      unfold parseStringBody
      simp [unescapeChar, ih]
    · rw [if_neg hq]
      by_cases hb : c = '\\'
      · subst hb
        rw [if_pos rfl]
        simp only [List.cons_append, List.nil_append]
        unfold parseStringBody
        simp [unescapeChar, ih]
      · rw [if_neg hb]
        by_cases h8 : c.toNat = 8
        · rw [if_pos h8]
          have hc : Char.ofNat 8 = c := by rw [← h8, hofn]
          simp only [List.cons_append, List.nil_append]
          unfold parseStringBody
          simp [unescapeChar, ih]
          exact hc
        · rw [if_neg h8]
          by_cases h9 : c.toNat = 9
          · rw [if_pos h9]
            have hc : Char.ofNat 9 = c := by rw [← h9, hofn]
            simp only [List.cons_append, List.nil_append]
            unfold parseStringBody
            simp [unescapeChar, ih]
            exact hc
          · rw [if_neg h9]
            by_cases hA : c.toNat = 10
            · rw [if_pos hA]
              have hc : Char.ofNat 10 = c := by rw [← hA, hofn]
              simp only [List.cons_append, List.nil_append]
              unfold parseStringBody
              simp [unescapeChar, ih]
              exact hc
            · rw [if_neg hA]
              by_cases hC : c.toNat = 12
              · rw [if_pos hC]
                have hc : Char.ofNat 12 = c := by rw [← hC, hofn]
                simp only [List.cons_append, List.nil_append]
                unfold parseStringBody
                simp [unescapeChar, ih]
                exact hc
              · rw [if_neg hC]
                by_cases hD : c.toNat = 13
                · rw [if_pos hD]
                  have hc : Char.ofNat 13 = c := by rw [← hD, hofn]
                  simp only [List.cons_append, List.nil_append]
                  unfold parseStringBody
                  simp [unescapeChar, ih]
                  exact hc
                · rw [if_neg hD]
                  by_cases hctl : c.toNat < 32
                  · rw [if_pos hctl]
                    have hz : hexVal '0' = some 0 := by decide
                    have hhi : hexVal (hexChar (c.toNat / 16)) = some (c.toNat / 16) :=
                      hexVal_hexChar (by omega)
                    have hlo : hexVal (hexChar (c.toNat % 16)) = some (c.toNat % 16) :=
                      hexVal_hexChar (by omega)
                    have harith : ((0 * 16 + 0) * 16 + c.toNat / 16) * 16 + c.toNat % 16
                        = c.toNat := by omega
                    simp only [List.cons_append, List.nil_append]
                    unfold parseStringBody
                    simp [hz, hhi, hlo, ih]
                    have e2 : c.toNat / 16 * 16 + c.toNat % 16 = c.toNat := by omega
                    rw [e2, hofn]
                  · rw [if_neg hctl]
                    simp only [List.cons_append, List.nil_append]
                    unfold parseStringBody
                    simp [hq, hb, ih]


theorem isDigitCh_not_special {c : Char} (h : isDigitCh c = true) :
    c ≠ 'n' ∧ c ≠ 't' ∧ c ≠ 'f' ∧ c ≠ '"' ∧ c ≠ '[' ∧ c ≠ '\x7b' := by
  refine ⟨?_, ?_, ?_, ?_, ?_, ?_⟩ <;> (rintro rfl; exact absurd h (by decide))


theorem isDigitCh_not_closer {c : Char} (h : isDigitCh c = true) :
    c ≠ ']' ∧ c ≠ '\x7d' ∧ c ≠ ',' ∧ c ≠ ':' := by
  refine ⟨?_, ?_, ?_, ?_⟩ <;> (rintro rfl; exact absurd h (by decide))


theorem isStarter_not_closer {c : Char} (h : isStarter c = true) :
    c ≠ ']' ∧ c ≠ '\x7d' ∧ c ≠ ',' ∧ c ≠ ':' := by
  simp only [isStarter, Bool.or_eq_true, decide_eq_true_eq] at h
  rcases h with ((((((h | h) | h) | h) | h) | h) | h) <;>
    first
      | (subst h; exact ⟨by decide, by decide, by decide, by decide⟩)
      | exact isDigitCh_not_closer h


theorem renderJson_cons (j : Json) :
    ∃ c cs, renderJson j = c :: cs ∧ isStarter c = true := by
  cases j with
  | null => exact ⟨'n', _, rfl, by decide⟩
  | bool b => cases b with
    | true => exact ⟨'t', _, rfl, by decide⟩
    | false => exact ⟨'f', _, rfl, by decide⟩
  | num n =>
    obtain ⟨d, ds, hd⟩ := List.exists_cons_of_ne_nil (natChars_ne_nil n)
    refine ⟨d, ds, hd, ?_⟩
    have hdig : isDigitCh d = true := natChars_digits n d (hd ▸ List.mem_cons_self d ds)
    simp [isStarter, hdig]
  | str s => exact ⟨'"', _, rfl, by decide⟩
  | arr es => exact ⟨'[', _, rfl, by decide⟩
  | obj fs => exact ⟨'\x7b', _, rfl, by decide⟩


mutual
/-- Core round trip: the parser, run on a rendered value followed by any
non-digit-initial tail, returns exactly that value and tail. -/
theorem parseVal_render : ∀ (j : Json) (f : Nat) (rest : List Char), jsize j ≤ f →
    (∀ c cs, rest = c :: cs → isDigitCh c = false) →
    parseVal f (renderJson j ++ rest) = some (j, rest)
  | j, 0, rest, hf, hrest => by cases j <;> simp [jsize] at hf
  | .null, f + 1, rest, hf, hrest => by
    rw [show renderJson .null = ['n', 'u', 'l', 'l'] from rfl]
    simp only [parseVal]
    simp
  | .bool true, f + 1, rest, hf, hrest => by
    rw [show renderJson (.bool true) = ['t', 'r', 'u', 'e'] from rfl]
    simp only [parseVal]
    simp
  | .bool false, f + 1, rest, hf, hrest => by
    rw [show renderJson (.bool false) = ['f', 'a', 'l', 's', 'e'] from rfl]
    simp only [parseVal]
    simp
  | .num n, f + 1, rest, hf, hrest => by
    rw [show renderJson (.num n) = natChars n from rfl]
    obtain ⟨d, ds, hd⟩ := List.exists_cons_of_ne_nil (natChars_ne_nil n)
    have hdig : isDigitCh d = true := natChars_digits n d (hd ▸ List.mem_cons_self d ds)
    obtain ⟨hn1, hn2, hn3, hn4, hn5, hn6⟩ := isDigitCh_not_special hdig
    rw [hd, List.cons_append]
    simp only [parseVal]
    rw [if_neg hn1, if_neg hn2, if_neg hn3, if_neg hn4, if_neg hn5, if_neg hn6, if_pos hdig]
    have hrun : parseNatAux 0 (d :: (ds ++ rest)) = (n, rest) := by
      rw [← List.cons_append, ← hd]
      exact parseNat_natChars n hrest
    simp [hrun]
  | .str s, f + 1, rest, hf, hrest => by
    rw [show renderJson (.str s) = '"' :: escapeList s ++ ['"'] from rfl]
    simp only [List.cons_append, List.append_assoc, List.singleton_append, List.nil_append]
    simp only [parseVal]
    simp [parseStringBody_escape s rest]
  | .arr es, f + 1, rest, hf, hrest => by
    rw [show renderJson (.arr es) = '[' :: renderArr es ++ [']'] from rfl]
    simp only [List.cons_append, List.append_assoc, List.singleton_append, List.nil_append]
    cases es with
    | nil => simp [renderArr, parseVal]
    | cons e tl =>
      have harr : parseArrItems f (renderArr (JsonArr.cons e tl) ++ ']' :: rest)
          = some (JsonArr.cons e tl, rest) :=
        parseArrItems_render (.cons e tl) f rest (by intro h; cases h)
          (by simp only [jsize] at hf; omega)
      obtain ⟨c0, cs0, hc0, hs0⟩ := renderJson_cons e
      have hne : c0 ≠ ']' := (isStarter_not_closer hs0).1
      have hren : renderArr (JsonArr.cons e tl) ++ ']' :: rest
          = c0 :: (cs0 ++ tailAfter tl rest) := by
        cases tl <;> simp [renderArr, hc0, tailAfter]
      rw [hren] at harr ⊢
      simp only [parseVal]
      rw [if_neg (show ¬ (('[' : Char) = 'n') from by decide),
        if_neg (show ¬ (('[' : Char) = 't') from by decide),
        if_neg (show ¬ (('[' : Char) = 'f') from by decide),
        if_neg (show ¬ (('[' : Char) = '"') from by decide)]
      rw [if_pos trivial]
      split
      · next heq =>
        injection heq with h1 h2
        exact absurd h1 hne
      · rw [harr]
        simp
  | .obj fs, f + 1, rest, hf, hrest => by
    rw [show renderJson (.obj fs) = '\x7b' :: renderObj fs ++ ['\x7d'] from rfl]
    simp only [List.cons_append, List.append_assoc, List.singleton_append, List.nil_append]
    cases fs with
    | nil => simp [renderObj, parseVal]
    | cons k v tl =>
      have hobj : parseObjItems f (renderObj (JsonObj.cons k v tl) ++ '\x7d' :: rest)
          = some (JsonObj.cons k v tl, rest) :=
        parseObjItems_render (.cons k v tl) f rest (by intro h; cases h)
          (by simp only [jsize] at hf; omega)
      have hex : ∃ t, renderObj (JsonObj.cons k v tl) ++ '\x7d' :: rest = '"' :: t := by
        cases tl <;> simp [renderObj]
      obtain ⟨t, ht⟩ := hex
      rw [ht] at hobj ⊢
      simp only [parseVal]
      rw [if_neg (show ¬ (('\x7b' : Char) = 'n') from by decide),
        if_neg (show ¬ (('\x7b' : Char) = 't') from by decide),
        if_neg (show ¬ (('\x7b' : Char) = 'f') from by decide),
        if_neg (show ¬ (('\x7b' : Char) = '"') from by decide),
        if_neg (show ¬ (('\x7b' : Char) = '[') from by decide)]
      rw [if_pos trivial]
      split
      · next heq =>
        injection heq with h1 h2
        exact absurd h1 (by decide)
      · rw [hobj]
        simp
/-- Round trip for non-empty array element lists including the closing
bracket. -/
theorem parseArrItems_render : ∀ (es : JsonArr) (f : Nat) (rest : List Char), es ≠ .nil →
    asize es ≤ f → parseArrItems f (renderArr es ++ ']' :: rest) = some (es, rest)
  | .nil, _, _, hne, _ => absurd rfl hne
  | .cons e tl, 0, rest, _, hf => by simp [asize] at hf
  | .cons e .nil, f + 1, rest, _, hf => by
    rw [show renderArr (.cons e .nil) = renderJson e from rfl]
    simp only [parseArrItems]
    simp [parseVal_render e f (']' :: rest) (by simp [asize] at hf; omega)
      (by intro c cs h; injection h with h1 _; rw [← h1]; decide)]
  | .cons e (.cons e2 tl2), f + 1, rest, _, hf => by
    rw [show renderArr (.cons e (.cons e2 tl2))
      = renderJson e ++ ',' :: renderArr (.cons e2 tl2) from rfl]
    simp only [List.append_assoc, List.cons_append]
    simp only [parseArrItems]
    simp [parseVal_render e f (',' :: (renderArr (.cons e2 tl2) ++ ']' :: rest))
      (by simp [asize] at hf; omega)
      (by intro c cs h; injection h with h1 _; rw [← h1]; decide),
      parseArrItems_render (.cons e2 tl2) f rest (by intro h; cases h)
      (by simp [asize] at hf ⊢; omega)]
/-- Round trip for non-empty object field lists including the closing
brace. -/
theorem parseObjItems_render : ∀ (fs : JsonObj) (f : Nat) (rest : List Char), fs ≠ .nil →
    osize fs ≤ f → parseObjItems f (renderObj fs ++ '\x7d' :: rest) = some (fs, rest)
  | .nil, _, _, hne, _ => absurd rfl hne
  | .cons k v tl, 0, rest, _, hf => by simp [osize] at hf
  | .cons k v .nil, f + 1, rest, _, hf => by
    rw [show renderObj (.cons k v .nil)
      = '"' :: escapeList k ++ '"' :: ':' :: renderJson v from rfl]
    simp only [List.cons_append, List.append_assoc, List.nil_append]
    simp only [parseObjItems]
    rw [parseStringBody_escape k (':' :: (renderJson v ++ '\x7d' :: rest))]
    simp [parseVal_render v f ('\x7d' :: rest) (by simp [osize] at hf; omega)
      (by intro c cs h; injection h with h1 _; rw [← h1]; decide)]
  | .cons k v (.cons k2 v2 tl2), f + 1, rest, _, hf => by
    rw [show renderObj (.cons k v (.cons k2 v2 tl2))
      = '"' :: escapeList k ++ '"' :: ':' :: renderJson v ++ ',' :: renderObj (.cons k2 v2 tl2)
      from rfl]
    simp only [List.cons_append, List.append_assoc, List.nil_append]
    simp only [parseObjItems]
    rw [parseStringBody_escape k
      (':' :: (renderJson v ++ ',' :: (renderObj (.cons k2 v2 tl2) ++ '\x7d' :: rest)))]
    simp [parseVal_render v f (',' :: (renderObj (.cons k2 v2 tl2) ++ '\x7d' :: rest))
      (by simp [osize] at hf; omega)
      (by intro c cs h; injection h with h1 _; rw [← h1]; decide),
      parseObjItems_render (.cons k2 v2 tl2) f rest (by intro h; cases h)
      (by simp [osize] at hf ⊢; omega)]
end

mutual
/-- The parser fuel measure is bounded by the rendered length, so input
length suffices as fuel. -/
theorem jsize_le_len : ∀ j : Json, jsize j ≤ (renderJson j).length
  | .null => by simp [jsize, renderJson]
  | .bool true => by simp [jsize, renderJson]
  | .bool false => by simp [jsize, renderJson]
  | .num n => by
    have h := List.length_pos.mpr (natChars_ne_nil n)
    simp only [jsize, renderJson]
    omega
  | .str s => by simp [jsize, renderJson]
  | .arr es => by
    have h := asize_le_len es
    simp only [jsize, renderJson, List.length_cons, List.length_append, List.length_singleton]
    omega
  | .obj fs => by
    have h := osize_le_len fs
    simp only [jsize, renderJson, List.length_cons, List.length_append, List.length_singleton]
    omega
/-- Array fuel measure bound. -/
theorem asize_le_len : ∀ es : JsonArr, asize es ≤ 1 + (renderArr es).length
  | .nil => by simp [asize]
  | .cons e .nil => by
    have h := jsize_le_len e
    simp only [asize, renderArr]
    omega
  | .cons e (.cons e2 tl) => by
    have h1 := jsize_le_len e
    have h2 := asize_le_len (.cons e2 tl)
    simp only [asize, renderArr, List.length_append, List.length_cons]
    simp only [asize] at h2
    omega
/-- Object fuel measure bound. -/
theorem osize_le_len : ∀ fs : JsonObj, osize fs ≤ 1 + (renderObj fs).length
  | .nil => by simp [osize]
  | .cons k v .nil => by
    have h := jsize_le_len v
    simp only [osize, renderObj, List.length_cons, List.length_append]
    omega
  | .cons k v (.cons k2 v2 tl) => by
    have h1 := jsize_le_len v
    have h2 := osize_le_len (.cons k2 v2 tl)
    simp only [osize, renderObj, List.length_cons, List.length_append]
    simp only [osize] at h2
    omega
end

/-- Top-level character round trip: parsing a rendering recovers the value
with full consumption. -/
theorem parseJson_renderJson (j : Json) : parseJson (renderJson j) = some j := by
  unfold parseJson
  have hfuel : jsize j ≤ (renderJson j).length + 1 := by
    have := jsize_le_len j
    omega
  have h := parseVal_render j ((renderJson j).length + 1) [] hfuel (by intro c cs h; cases h)
  rw [List.append_nil] at h
  rw [h]


/-- Byte round trip: deserializing a serialization recovers the value. -/
theorem bytesToJson_jsonToBytes (j : Json) : bytesToJson (jsonToBytes j) = some j := by
  unfold bytesToJson jsonToBytes
  rw [utf8Decode_utf8Encode]
  exact parseJson_renderJson j


/-- Typed round trip through JSON values for inbound messages. -/
theorem extensionMessage_fromJson_toJson (m : ExtensionMessage) (hwf : m.wf) :
    ExtensionMessage.fromJson m.toJson = some m := by
  cases m with
  | ready service =>
    simp [ExtensionMessage.toJson, ExtensionMessage.fromJson, Json.get, Json.get.go]
  | badgeUpdate count =>
    have hc : count < 4294967296 := hwf
    simp [ExtensionMessage.toJson, ExtensionMessage.fromJson, Json.get, Json.get.go, hc]
  | notification title body icon =>
    cases icon <;>
      simp [ExtensionMessage.toJson, ExtensionMessage.fromJson, Json.get, Json.get.go]
  | windowHidden =>
    simp [ExtensionMessage.toJson, ExtensionMessage.fromJson, Json.get, Json.get.go]
  | windowShown =>
    simp [ExtensionMessage.toJson, ExtensionMessage.fromJson, Json.get, Json.get.go]


/-- Typed round trip through JSON values for outbound messages. -/
theorem daemonMessage_fromJson_toJson (m : DaemonMessage) :
    DaemonMessage.fromJson m.toJson = some m := by
  cases m with
  | dndChanged enabled =>
    simp [DaemonMessage.toJson, DaemonMessage.fromJson, Json.get, Json.get.go]
  | hideWindow => simp [DaemonMessage.toJson, DaemonMessage.fromJson, Json.get, Json.get.go]
  | showWindow => simp [DaemonMessage.toJson, DaemonMessage.fromJson, Json.get, Json.get.go]
  | ping => simp [DaemonMessage.toJson, DaemonMessage.fromJson, Json.get, Json.get.go]


theorem u32leVal_u32leBytes (n : Nat) :
    u32leVal (n % 256) (n / 256 % 256) (n / 65536 % 256) (n / 16777216 % 256)
      = n % 4294967296 := by
  unfold u32leVal
  omega


/-- Frame round trip: reading a written frame whose body is within the
size limit yields the original JSON value and leaves trailing bytes
unconsumed. -/
theorem read_write_nm_message (msg : Json) (extra : List Nat)
    (hsize : (jsonToBytes msg).length ≤ 1048576) :
    read_nm_message (write_nm_message msg ++ extra) = .ok (msg, extra) ∧
    read_nm_message_async (write_nm_message msg ++ extra) = .ok (msg, extra) := by
  have hmod : (jsonToBytes msg).length % 4294967296 = (jsonToBytes msg).length :=
    Nat.mod_eq_of_lt (by omega)
  have hnot : ¬ ((jsonToBytes msg).length > 1048576) := by omega
  have hlen2 : ¬ ((jsonToBytes msg ++ extra).length < (jsonToBytes msg).length) := by
    simp [List.length_append]
  have htake : (jsonToBytes msg ++ extra).take (jsonToBytes msg).length = jsonToBytes msg :=
    List.take_left (jsonToBytes msg) extra
  have hdrop : (jsonToBytes msg ++ extra).drop (jsonToBytes msg).length = extra :=
    List.drop_left (jsonToBytes msg) extra
  constructor
  · simp only [write_nm_message, u32leBytes, List.cons_append, List.nil_append,
      List.append_assoc]
    simp only [read_nm_message]
    rw [u32leVal_u32leBytes, hmod, if_neg hnot, if_neg hlen2, htake,
      bytesToJson_jsonToBytes, hdrop]
  · simp only [write_nm_message, u32leBytes, List.cons_append, List.nil_append,
      List.append_assoc]
    simp only [read_nm_message_async]
    rw [u32leVal_u32leBytes, hmod, if_neg hnot, if_neg hlen2, htake,
      bytesToJson_jsonToBytes, hdrop]


theorem utf8Encode_length_ge (cs : List Char) : cs.length ≤ (utf8Encode cs).length := by
  induction cs with
  | nil => simp [utf8Encode]
  | cons c cs ih =>
    have := utf8Char_length_pos c
    simp only [utf8Encode, List.map_cons, List.flatten_cons, List.length_append,
      List.length_cons]
    simp only [utf8Encode] at ih
    omega


theorem utf8Encode_length_le (cs : List Char) : (utf8Encode cs).length ≤ 4 * cs.length := by
  induction cs with
  | nil => simp [utf8Encode]
  | cons c cs ih =>
    have := utf8Char_length_le c
    simp only [utf8Encode, List.map_cons, List.flatten_cons, List.length_append,
      List.length_cons]
    simp only [utf8Encode] at ih
    omega


theorem escapeList_replicate_a (n : Nat) :
    escapeList (List.replicate n 'a') = List.replicate n 'a' := by
  induction n with
  | zero => rfl
  | succ n ih =>
    rw [List.replicate_succ]
    show escapeChar 'a' ++ escapeList (List.replicate n 'a') = _
    rw [ih, show escapeChar 'a' = ['a'] from by decide]
    rfl


theorem notif_render_len_bounds (t : List Char) :
    (escapeList t).length
        ≤ (renderJson (ExtensionMessage.toJson (.notification t [] none))).length ∧
      (renderJson (ExtensionMessage.toJson (.notification t [] none))).length
        ≤ 100 + (escapeList t).length := by
  have e1 : (escapeList "type".toList).length = 4 := by decide
  have e2 : (escapeList "notification".toList).length = 12 := by decide
  have e3 : (escapeList "title".toList).length = 5 := by decide
  have e4 : (escapeList "body".toList).length = 4 := by decide
  have e5 : (escapeList "icon".toList).length = 4 := by decide
  have e6 : (escapeList ([] : List Char)).length = 0 := by decide
  have e7 : ("null".toList).length = 4 := by decide
  simp only [ExtensionMessage.toJson, renderJson, renderObj, List.length_cons,
    List.length_append, List.length_singleton, List.length_nil, e1, e2, e3, e4, e5, e6, e7]
  omega


/-- Oversized frames are written whole but rejected on read: reading a
written frame whose body exceeds the limit fails with the too-large
error. -/
theorem read_write_too_large (msg : Json) (h1 : 1048576 < (jsonToBytes msg).length)
    (h2 : (jsonToBytes msg).length < 4294967296) :
    read_nm_message (write_nm_message msg) = .error (.tooLarge (jsonToBytes msg).length) := by
  simp only [write_nm_message, u32leBytes, List.cons_append, List.nil_append]
  simp only [read_nm_message]
  rw [u32leVal_u32leBytes, Nat.mod_eq_of_lt h2, if_pos h1]


/-! ## Supporting lemmas for the CDP claims -/

theorem splitNul_append {m : List Nat} (h : (0 : Nat) ∉ m) (rest : List Nat) :
    splitNul (m ++ 0 :: rest) = some (m, rest) := by
  induction m with
  | nil => rfl
  | cons b bs ih =>
    have hb : b ≠ 0 := fun hb => h (hb ▸ List.mem_cons_self b bs)
    have hbs : (0 : Nat) ∉ bs := fun hm => h (List.mem_cons_of_mem b hm)
    match b, hb with
    | k + 1, _ =>
      show (splitNul (bs ++ 0 :: rest)).map _ = _
      rw [ih hbs]
      rfl


theorem nulJoin_length_ge (msgs : List (List Nat)) : msgs.length ≤ (nulJoin msgs).length := by
  induction msgs with
  | nil => simp [nulJoin]
  | cons m ms ih =>
    simp only [nulJoin, List.map_cons, List.flatten_cons, List.length_append,
      List.length_cons] at ih ⊢
    omega


theorem scan_nulJoin (pre : List (List Nat)) (succMsg : List Nat) :
    ∀ fuel, (∀ m ∈ pre, (0 : Nat) ∉ m ∧ check_cdp_message m = none) →
    (0 : Nat) ∉ succMsg → ∀ r, check_cdp_message succMsg = some r →
    pre.length < fuel →
    scan_accumulated fuel (nulJoin (pre ++ [succMsg])) = (some r, []) := by
  induction pre with
  | nil =>
    intro fuel _ hz r hr hf
    match fuel, hf with
    | f + 1, _ =>
      show (match splitNul (nulJoin [succMsg]) with
        | some (msgBytes, rest) =>
          match check_cdp_message msgBytes with
          | some r => (some r, rest)
          | none => scan_accumulated f rest
        | none => (none, nulJoin [succMsg])) = _
      have : nulJoin [succMsg] = succMsg ++ 0 :: [] := by simp [nulJoin]
      rw [this, splitNul_append hz]
      dsimp only
      rw [hr]
  | cons m pre ih =>
    intro fuel hpre hz r hr hf
    match fuel, hf with
    | f + 1, hf2 =>
      obtain ⟨hm0, hmchk⟩ := hpre m (List.mem_cons_self m pre)
      have hstep : nulJoin ((m :: pre) ++ [succMsg])
          = m ++ 0 :: nulJoin (pre ++ [succMsg]) := by
        simp [nulJoin]
      show (match splitNul (nulJoin ((m :: pre) ++ [succMsg])) with
        | some (msgBytes, rest) =>
          match check_cdp_message msgBytes with
          | some r => (some r, rest)
          | none => scan_accumulated f rest
        | none => (none, nulJoin ((m :: pre) ++ [succMsg]))) = _
      rw [hstep, splitNul_append hm0]
      dsimp only
      rw [hmchk]
      exact ih f (fun x hx => hpre x (List.mem_cons_of_mem m hx)) hz r hr
        (by simp only [List.length_cons] at hf2; omega)


/-! # Claims -/

/-- Claim C1 (corrected, size-bounded as the counterexample below
forces): for every inbound ExtensionMessage within the u32 range of its
fields and whose serialized JSON body is at most 1,048,576 bytes, and for
every outbound DaemonMessage (all of which are small), writing the
message with write_nm_message and reading the produced bytes back with
read_nm_message yields the same message again. -/
theorem c1_wire_roundtrip :
    (∀ m : ExtensionMessage, m.wf → (jsonToBytes m.toJson).length ≤ 1048576 →
      decode_extension_message (encode_extension_message m) = some m)
    ∧ (∀ dm : DaemonMessage, decode_daemon_message (encode_daemon_message dm) = some dm) := by
  constructor
  · intro m hwf hsize
    have h := (read_write_nm_message m.toJson [] hsize).1
    rw [List.append_nil] at h
    simp [decode_extension_message, encode_extension_message, h,
      extensionMessage_fromJson_toJson m hwf]
  · intro dm
    have hsize : (jsonToBytes dm.toJson).length ≤ 1048576 := by
      cases dm with
      | dndChanged b => cases b <;> decide
      | hideWindow => decide
      | showWindow => decide
      | ping => decide
    have h := (read_write_nm_message dm.toJson [] hsize).1
    rw [List.append_nil] at h
    simp [decode_daemon_message, encode_daemon_message, h, daemonMessage_fromJson_toJson dm]


/-- Claim C1 witness: the round trip at a concrete Ready message. -/
theorem c1_wire_roundtrip_witness :
    decode_extension_message (encode_extension_message (.ready "whatsapp".toList))
      = some (.ready "whatsapp".toList) :=
  c1_wire_roundtrip.1 (.ready "whatsapp".toList) trivial (by decide)


/-- Claim C1 counterexample: the claim as stated fails for a Notification
whose title is 1,048,577 characters — write_nm_message writes the frame
without any size check, but read_nm_message rejects the declared length
as too large, so decode(encode(m)) is not m. -/
theorem decode_extension_of_read_error (bs : List Nat) (e : NmError)
    (h : read_nm_message bs = .error e) : decode_extension_message bs = none := by
  unfold decode_extension_message
  rw [h]


theorem c1_oversized_notification_fails :
    decode_extension_message (encode_extension_message
        (.notification (List.replicate 1048577 'a') [] none))
      ≠ some (.notification (List.replicate 1048577 'a') [] none) := by
  have hesc : (escapeList (List.replicate 1048577 'a')).length = 1048577 := by
    rw [escapeList_replicate_a, List.length_replicate]
  obtain ⟨hlo, hhi⟩ := notif_render_len_bounds (List.replicate 1048577 'a')
  have hjb : jsonToBytes (ExtensionMessage.toJson
        (.notification (List.replicate 1048577 'a') [] none))
      = utf8Encode (renderJson (ExtensionMessage.toJson
        (.notification (List.replicate 1048577 'a') [] none))) := rfl
  have hge := utf8Encode_length_ge (renderJson (ExtensionMessage.toJson
    (.notification (List.replicate 1048577 'a') [] none)))
  have hle := utf8Encode_length_le (renderJson (ExtensionMessage.toJson
    (.notification (List.replicate 1048577 'a') [] none)))
  have h1 : 1048576 < (jsonToBytes (ExtensionMessage.toJson
      (.notification (List.replicate 1048577 'a') [] none))).length := by
    rw [hjb]
    omega
  have h2 : (jsonToBytes (ExtensionMessage.toJson
      (.notification (List.replicate 1048577 'a') [] none))).length < 4294967296 := by
    rw [hjb]
    omega
  have hnone : decode_extension_message (encode_extension_message
      (.notification (List.replicate 1048577 'a') [] none)) = none :=
    decode_extension_of_read_error _ _ (read_write_too_large _ h1 h2)
  exact ne_of_eq_of_ne hnone (fun h => Option.noConfusion h)


/-- Claim C2: a declared length strictly greater than 1,048,576 makes
read_nm_message and read_nm_message_async fail with the too-large error
for every stream, regardless of how few body bytes follow; the concrete
header 2,000,000 with only 100 bytes following fails as too-large, not
as a partial read; and a declared length of exactly 1,048,576 passes the
size check (the result is never the too-large error). -/
theorem c2_oversized_frame_rejected :
    (∀ b0 b1 b2 b3 rest, 1048576 < u32leVal b0 b1 b2 b3 →
      read_nm_message (b0 :: b1 :: b2 :: b3 :: rest)
          = .error (.tooLarge (u32leVal b0 b1 b2 b3))
        ∧ read_nm_message_async (b0 :: b1 :: b2 :: b3 :: rest)
          = .error (.tooLarge (u32leVal b0 b1 b2 b3)))
    ∧ read_nm_message (u32leBytes 2000000 ++ List.replicate 100 0)
        = .error (.tooLarge 2000000)
    ∧ (∀ rest n, read_nm_message (u32leBytes 1048576 ++ rest) ≠ .error (.tooLarge n)) := by
  have key : ∀ b0 b1 b2 b3 rest, 1048576 < u32leVal b0 b1 b2 b3 →
      read_nm_message (b0 :: b1 :: b2 :: b3 :: rest)
          = .error (.tooLarge (u32leVal b0 b1 b2 b3))
        ∧ read_nm_message_async (b0 :: b1 :: b2 :: b3 :: rest)
          = .error (.tooLarge (u32leVal b0 b1 b2 b3)) := by
    intro b0 b1 b2 b3 rest h
    constructor
    · simp only [read_nm_message]
      rw [if_pos h]
    · simp only [read_nm_message_async]
      rw [if_pos h]
  refine ⟨key, ?_, ?_⟩
  · have h := (key 128 132 30 0 (List.replicate 100 0) (by decide)).1
    rw [show u32leVal 128 132 30 0 = 2000000 from rfl] at h
    rw [show u32leBytes 2000000 = [128, 132, 30, 0] from rfl]
    simpa using h
  · intro rest n
    simp only [u32leBytes, List.cons_append, List.nil_append, read_nm_message]
    have hv : u32leVal (1048576 % 256) (1048576 / 256 % 256) (1048576 / 65536 % 256)
        (1048576 / 16777216 % 256) = 1048576 := by
      unfold u32leVal
      omega
    rw [hv, if_neg (by omega)]
    split
    · simp
    · split <;> simp


/-- Claim C2 witness: the general rejection applied at the concrete
header bytes of 2,000,000 followed by an empty body. -/
theorem c2_oversized_frame_rejected_witness :
    read_nm_message (128 :: 132 :: 30 :: 0 :: []) = .error (.tooLarge 2000000) := by
  have h := (c2_oversized_frame_rejected.1 128 132 30 0 [] (by decide)).1
  simpa using h


/-- Claim C3: in every happy-path iteration of ChromeManager::run_loop,
once the supervised browser process exits the recorded chrome_pid is set
to None and visible to false; the iteration returns successfully exactly
when quit_requested was observed true at that exit point or at the
wakeup from the preceding hide-to-tray wait; and otherwise the loop
continues in the waiting state whose next wakeup without quit passes the
wait phase and proceeds back to spawning. -/
theorem c3_run_loop_state_machine (w : Bool) (inp : IterInput) (s : DaemonState) :
    ((exit_clear (spawn_record inp.spawnPid s)).chrome_pid = none
      ∧ (exit_clear (spawn_record inp.spawnPid s)).visible = false)
    ∧ ((∃ s2, run_loop_iter w inp s = .terminated s2)
        ↔ ((w = true ∧ inp.wakeQuit = true) ∨ inp.exitQuit = true))
    ∧ (inp.exitQuit = false → ¬(w = true ∧ inp.wakeQuit = true) →
        run_loop_iter w inp s = .continues (exit_clear (spawn_record inp.spawnPid s))
        ∧ ∀ s3 : DaemonState, wait_phase true false s3 = some s3) := by
  refine ⟨⟨rfl, rfl⟩, ?_, ?_⟩
  · cases hw : w <;> cases hq : inp.wakeQuit <;> cases he : inp.exitQuit <;>
      simp [run_loop_iter, wait_phase, hq, he]
  · intro he hnw
    refine ⟨?_, fun s3 => by simp [wait_phase]⟩
    unfold run_loop_iter wait_phase
    rw [if_neg (by simpa using hnw), he]
    rfl


/-- Claim C3 witness: a non-quit iteration from the waiting state clears
the pid and visibility and continues. -/
theorem c3_run_loop_state_machine_witness :
    run_loop_iter true ⟨false, some 7, false⟩ (DaemonState.new false false)
      = .continues (exit_clear (spawn_record (some 7) (DaemonState.new false false))) :=
  ((c3_run_loop_state_machine true ⟨false, some 7, false⟩ (DaemonState.new false false)).2.2
    rfl (by simp)).1


/-- Claim C4: the relay connection handler overwrites badge_count on
BadgeUpdate (scenario A: a badge_update frame with count 5 sent through
the wire codec yields badge state 5), sets visible false on WindowHidden
and true on WindowShown, leaves all state unchanged on Ready and on
Notification, and a JSON frame matching no known variant leaves state
unchanged without terminating the connection loop. -/
theorem c4_relay_inbound_semantics :
    (∀ (s : DaemonState) (n : Nat), n < 4294967296 →
      handle_relay_message (ExtensionMessage.toJson (.badgeUpdate n)) s
        = { s with badge_count := n })
    ∧ (∀ s : DaemonState, handle_relay_message (ExtensionMessage.toJson .windowHidden) s
        = { s with visible := false })
    ∧ (∀ s : DaemonState, handle_relay_message (ExtensionMessage.toJson .windowShown) s
        = { s with visible := true })
    ∧ (∀ (s : DaemonState) (service : List Char),
        handle_relay_message (ExtensionMessage.toJson (.ready service)) s = s)
    ∧ (∀ (s : DaemonState) (title body : List Char) (icon : Option (List Char)),
        handle_relay_message (ExtensionMessage.toJson (.notification title body icon)) s = s)
    ∧ (∀ (v : Json) (s : DaemonState), ExtensionMessage.fromJson v = none →
        relay_inbound_step (.ok v) s = (s, true))
    ∧ (read_nm_message (write_nm_message (ExtensionMessage.toJson (.badgeUpdate 5)))
          = .ok (ExtensionMessage.toJson (.badgeUpdate 5), [])
        ∧ (handle_relay_message (ExtensionMessage.toJson (.badgeUpdate 5))
            (DaemonState.new false false)).badge_count = 5) := by
  have hbadge : ∀ (s : DaemonState) (n : Nat), n < 4294967296 →
      handle_relay_message (ExtensionMessage.toJson (.badgeUpdate n)) s
        = { s with badge_count := n } := by
    intro s n hn
    unfold handle_relay_message
    rw [extensionMessage_fromJson_toJson (.badgeUpdate n) hn]
  refine ⟨hbadge, ?_, ?_, ?_, ?_, ?_, ?_⟩
  · intro s
    unfold handle_relay_message
    rw [extensionMessage_fromJson_toJson .windowHidden trivial]
  · intro s
    unfold handle_relay_message
    rw [extensionMessage_fromJson_toJson .windowShown trivial]
  · intro s service
    unfold handle_relay_message
    rw [extensionMessage_fromJson_toJson (.ready service) trivial]
  · intro s title body icon
    unfold handle_relay_message
    rw [extensionMessage_fromJson_toJson (.notification title body icon) trivial]
  · intro v s hv
    unfold relay_inbound_step handle_relay_message
    dsimp only
    rw [hv]
  · constructor
    · have h := (read_write_nm_message (ExtensionMessage.toJson (.badgeUpdate 5)) []
        (by decide)).1
      rw [List.append_nil] at h
      exact h
    · rw [hbadge (DaemonState.new false false) 5 (by decide)]


/-- Claim C4 witness: the badge effect at count 5. -/
theorem c4_relay_inbound_semantics_witness :
    handle_relay_message (ExtensionMessage.toJson (.badgeUpdate 5)) (DaemonState.new false false)
      = { DaemonState.new false false with badge_count := 5 } :=
  c4_relay_inbound_semantics.1 (DaemonState.new false false) 5 (by decide)


/-- Claim C5: quit_requested starts false, the only write any operation
performs on it stores true, and once true it stays true across every
sequence of operations. -/
theorem c5_quit_requested_monotonic :
    (∀ d m, (DaemonState.new d m).quit_requested = false)
    ∧ (∀ (op : DaemonOp) (s : DaemonState),
        (applyOp op s).quit_requested = s.quit_requested
          ∨ (applyOp op s).quit_requested = true)
    ∧ (∀ (ops : List DaemonOp) (s : DaemonState), s.quit_requested = true →
        (applyOps ops s).quit_requested = true) := by
  have hstep : ∀ (op : DaemonOp) (s : DaemonState),
      (applyOp op s).quit_requested = s.quit_requested
        ∨ (applyOp op s).quit_requested = true := by
    intro op s
    rcases op with _ | _ | _ | _ | b | v | pid | _
    · left; rfl
    · left; rfl
    · left
      show (if s.visible = true then s.request_hide else s.request_show).quit_requested
        = s.quit_requested
      by_cases hv : s.visible = true
      · rw [if_pos hv]; rfl
      · rw [if_neg hv]; rfl
    · right
      show (s.request_quit).quit_requested = true
      cases hp : s.chrome_pid <;> simp [DaemonState.request_quit, hp]
    · left; rfl
    · left
      show (handle_relay_message v s).quit_requested = s.quit_requested
      unfold handle_relay_message
      split <;> rfl
    · left; rfl
    · left; rfl
  refine ⟨fun d m => rfl, hstep, ?_⟩
  intro ops
  induction ops with
  | nil => intro s h; exact h
  | cons op ops ih =>
    intro s h
    show (applyOps ops (applyOp op s)).quit_requested = true
    apply ih
    rcases hstep op s with h2 | h2
    · rw [h2]; exact h
    · exact h2


/-- Claim C5 witness: the monotone part across a concrete operation
sequence from a state with the flag set. -/
theorem c5_quit_requested_monotonic_witness :
    (applyOps [.show, .hide, .inbound .null]
      { DaemonState.new false false with quit_requested := true }).quit_requested = true :=
  c5_quit_requested_monotonic.2.2 [.show, .hide, .inbound .null]
    { DaemonState.new false false with quit_requested := true } rfl


/-- Claim C6: request_quit (reached by the D-Bus Quit method and the
tray Quit item) always stores quit_requested and wakes any show-waiter,
and whenever a supervised pid is recorded it sends that process
SIGTERM. -/
theorem c6_quit_call_semantics (s : DaemonState) :
    (s.request_quit).quit_requested = true
    ∧ (s.request_quit).notified = s.notified + 1
    ∧ (∀ pid, s.chrome_pid = some pid →
        (s.request_quit).killed = s.killed ++ [(pid, SIGTERM)]) := by
  cases hp : s.chrome_pid with
  | none =>
    refine ⟨?_, ?_, ?_⟩
    · simp [DaemonState.request_quit, hp]
    · simp [DaemonState.request_quit, hp]
    · intro pid h
      exact Option.noConfusion h
  | some pid0 =>
    refine ⟨?_, ?_, ?_⟩
    · simp [DaemonState.request_quit, hp]
    · simp [DaemonState.request_quit, hp]
    · intro pid h
      injection h with h1
      subst h1
      simp [DaemonState.request_quit, hp]


/-- Claim C6 witness: with pid 4242 recorded, Quit records the SIGTERM
delivery to 4242. -/
theorem c6_quit_call_semantics_witness :
    (({ DaemonState.new false false with chrome_pid := some 4242 } :
        DaemonState).request_quit).killed = [(4242, SIGTERM)] := by
  have h := (c6_quit_call_semantics
    { DaemonState.new false false with chrome_pid := some 4242 }).2.2 4242 rfl
  simpa using h


/-- Claim C7: the CDP loader splits the response stream on 0x00
delimiters and skips without error every JSON object whose id differs
from 1 (and every unparseable segment); an id:1 object with a result
yields success and one with an error yields the descriptive failure; a
whole stream of unrelated traffic followed by the id:1 response returns
exactly the id:1 outcome; and when only WouldBlock reads occur past the
fixed 10-second deadline the loop returns the normal timeout error
rather than blocking. -/
theorem c7_cdp_loader_correlation :
    (∀ (m : List Nat) (j : Json), bytesToJson m = some j →
        j.get "id".toList ≠ some (.num 1) → check_cdp_message m = none)
    ∧ (∀ (m : List Nat) (j : Json), bytesToJson m = some j →
        j.get "id".toList = some (.num 1) →
        (∀ r, j.get "result".toList = some r → check_cdp_message m = some .loaded)
        ∧ (∀ e, j.get "result".toList = none → j.get "error".toList = some e →
            check_cdp_message m = some (.loadFailed (cdp_error_message e))))
    ∧ (∀ (pre : List (List Nat)) (succMsg : List Nat) (r : CdpResult),
        (∀ m ∈ pre, (0 : Nat) ∉ m ∧ check_cdp_message m = none) →
        (0 : Nat) ∉ succMsg → check_cdp_message succMsg = some r →
        cdp_read_loop [.chunk (nulJoin (pre ++ [succMsg]))] [] 0 = r)
    ∧ cdp_read_loop (List.replicate 102 .wouldBlock) [] 0 = .timeoutExpired := by
  refine ⟨?_, ?_, ?_, by decide⟩
  · intro m j hm hne
    unfold check_cdp_message
    rw [hm]
    dsimp only
    rw [if_neg hne]
  · intro m j hm hid
    constructor
    · intro r hr
      unfold check_cdp_message
      rw [hm]
      dsimp only
      rw [if_pos hid, hr]
    · intro e hres herr
      unfold check_cdp_message
      rw [hm]
      dsimp only
      rw [if_pos hid, hres, herr]
  · intro pre succMsg r hpre hz hr
    unfold cdp_read_loop
    have hfuel : (pre ++ [succMsg]).length ≤ (nulJoin (pre ++ [succMsg])).length :=
      nulJoin_length_ge (pre ++ [succMsg])
    have hlt : pre.length < (nulJoin (pre ++ [succMsg])).length + 1 := by
      simp only [List.length_append, List.length_singleton] at hfuel
      omega
    have hscan := scan_nulJoin pre succMsg
      ((nulJoin (pre ++ [succMsg])).length + 1) hpre hz r hr hlt
    dsimp only
    rw [List.nil_append, hscan]


/-- Claim C7 witness: an unrelated id:2 event followed by the id:1
success response yields the loaded outcome. -/
theorem c7_cdp_loader_correlation_witness :
    cdp_read_loop [.chunk (nulJoin
      [jsonToBytes (.obj (.cons "id".toList (.num 2) .nil)),
       jsonToBytes (.obj (.cons "id".toList (.num 1)
         (.cons "result".toList (.obj (.cons "id".toList (.str "abcdef".toList) .nil))
           .nil)))])] [] 0 = .loaded := by
  have h := c7_cdp_loader_correlation.2.2.1
    [jsonToBytes (.obj (.cons "id".toList (.num 2) .nil))]
    (jsonToBytes (.obj (.cons "id".toList (.num 1)
      (.cons "result".toList (.obj (.cons "id".toList (.str "abcdef".toList) .nil)) .nil))))
    .loaded (by decide) (by decide) (by decide)
  exact h


/-- Claim C8: run_relay reads exactly one frame from standard input
before anything else; a first frame without a string-valued service
field is a fatal startup error (as is a failing initial read), and
otherwise the relay targets that service's socket path and forwards
that same first frame to the socket, leaving the remaining stdin to the
copy loops. -/
theorem c8_relay_first_frame (runtimeDir : List Char) (stdin : List Nat) :
    (∀ e, read_nm_message stdin = .error e →
      run_relay_start runtimeDir stdin = .error (.initialRead e))
    ∧ (∀ first_msg rest, read_nm_message stdin = .ok (first_msg, rest) →
        (∀ s, first_msg.get "service".toList = some (.str s) →
          run_relay_start runtimeDir stdin
            = .ok { service := s
                    socketPath := relay_socket_path runtimeDir s
                    first_forwarded := write_nm_message first_msg
                    stdin_rest := rest })
        ∧ ((∀ s, first_msg.get "service".toList ≠ some (.str s)) →
          run_relay_start runtimeDir stdin = .error .missingService)) := by
  constructor
  · intro e he
    unfold run_relay_start
    rw [he]
  · intro first_msg rest hok
    constructor
    · intro s hs
      unfold run_relay_start
      rw [hok]
      dsimp only
      rw [hs]
    · intro hns
      unfold run_relay_start
      rw [hok]
      dsimp only
      cases hv : first_msg.get "service".toList with
      | none => rfl
      | some j =>
        cases j with
        | str s => exact absurd hv (hns s)
        | null => rfl
        | bool b => rfl
        | num n => rfl
        | arr a => rfl
        | obj o => rfl


/-- Claim C8 witness: a concrete first frame carrying service
"whatsapp" starts the relay against that service's socket and forwards
the frame. -/
theorem c8_relay_first_frame_witness :
    run_relay_start "/run/user/1000".toList
        (write_nm_message (.obj (.cons "service".toList (.str "whatsapp".toList) .nil)))
      = .ok { service := "whatsapp".toList
              socketPath := relay_socket_path "/run/user/1000".toList "whatsapp".toList
              first_forwarded := write_nm_message
                (.obj (.cons "service".toList (.str "whatsapp".toList) .nil))
              stdin_rest := [] } := by
  have hread := (read_write_nm_message
    (.obj (.cons "service".toList (.str "whatsapp".toList) .nil)) [] (by decide)).1
  rw [List.append_nil] at hread
  exact ((c8_relay_first_frame "/run/user/1000".toList _).2 _ _ hread).1
    "whatsapp".toList (by decide)


/-- Claim C9 (code bug): dbus.rs's set_show_titlebar is written to
broadcast DaemonMessage::TitlebarConfig, store state.show_titlebar and
persist config.show_titlebar, but the DaemonMessage enum actually
declared in messaging.rs lines 35-42 (DndChanged, HideWindow,
ShowWindow, Ping) has no titlebar_config variant — so no value the
broadcast channel can carry ever serializes with the titlebar_config
tag, and the crate as committed cannot satisfy the claim (DaemonState
and ServiceConfig also lack the fields dbus.rs writes). -/
theorem c9_daemon_message_lacks_titlebar_config :
    ∀ m : DaemonMessage, (DaemonMessage.toJson m).get "type".toList
      ≠ some (.str "titlebar_config".toList) := by
  intro m
  cases m with
  | dndChanged b =>
    show (Json.obj (.cons "type".toList (.str "dnd_changed".toList)
      (.cons "enabled".toList (.bool b) .nil))).get "type".toList
      ≠ some (.str "titlebar_config".toList)
    unfold Json.get Json.get.go
    rw [if_pos rfl]
    intro h
    injection h with h1
    exact absurd (Json.str.inj h1) (by decide)
  | hideWindow => decide
  | showWindow => decide
  | ping => decide

/-- Claim C9 witness: the Ping variant in particular does not carry the
titlebar_config tag. -/
theorem c9_daemon_message_lacks_titlebar_config_witness :
    (DaemonMessage.toJson .ping).get "type".toList
      ≠ some (.str "titlebar_config".toList) :=
  c9_daemon_message_lacks_titlebar_config .ping


/-- Claim C10 (code bug): start_minimized is initialized from the
--minimized flag and its own doc comment (mod.rs lines 25-27) promises
the messaging handler hides the window on the first WindowShown, but no
code reads the flag: the WindowShown arm of handle_relay_connection
unconditionally sets visible true, emits no HideWindow command and
leaves start_minimized untouched, and no state operation ever writes
start_minimized after construction — no show event is ever
suppressed. -/
theorem c10_start_minimized_unused :
    (∀ d : Bool, (DaemonState.new d true).start_minimized = true)
    ∧ (∀ s : DaemonState, s.start_minimized = true →
        handle_relay_message (ExtensionMessage.toJson .windowShown) s
          = { s with visible := true })
    ∧ (∀ (op : DaemonOp) (s : DaemonState),
        (applyOp op s).start_minimized = s.start_minimized) := by
  refine ⟨fun d => rfl, ?_, ?_⟩
  · intro s hmin
    unfold handle_relay_message
    rw [extensionMessage_fromJson_toJson .windowShown trivial]
  · intro op s
    rcases op with _ | _ | _ | _ | b | v | pid | _
    · rfl
    · rfl
    · show (if s.visible = true then s.request_hide else s.request_show).start_minimized
        = s.start_minimized
      by_cases hv : s.visible = true
      · rw [if_pos hv]; rfl
      · rw [if_neg hv]; rfl
    · show (s.request_quit).start_minimized = s.start_minimized
      cases hp : s.chrome_pid <;> simp [DaemonState.request_quit, hp]
    · rfl
    · show (handle_relay_message v s).start_minimized = s.start_minimized
      unfold handle_relay_message
      split <;> rfl
    · rfl
    · rfl


/-- Claim C10 witness: with the minimized hint set, the first
WindowShown still just presents the window. -/
theorem c10_start_minimized_unused_witness :
    handle_relay_message (ExtensionMessage.toJson .windowShown) (DaemonState.new false true)
      = { DaemonState.new false true with visible := true } :=
  c10_start_minimized_unused.2.1 (DaemonState.new false true) rfl



end Loft
